import Mathlib

/-!
Verification of the `mempool` fixed-size-class allocator (`src/mempool.c`)
against its natural-language specification.

The C code is shallowly embedded: memory is a map from byte addresses
(`Nat`) to the machine word stored at a chunk's first field (the code only
ever reads/writes the first word of a chunk: the intrusive "next" link
while the chunk is free, the 4-byte size header once it is allocated).
Address `0` plays the role of `NULL`.  `mmap` is modelled by a fresh-address
counter (`nextBase`): the OS always hands back a previously unused, nonzero
base address.  Ghost fields (`mapped`, `carved`, `oob`) record events the C
program performs but does not store: which class arenas were ever mapped,
the cell capacity fixed when a chunk was carved, and any out-of-bounds
fastbin index the release path computes.
-/

namespace Mempool

set_option maxRecDepth 400000

/-- Constant `FASTBIN_SIZE` from mempool.c. -/
def FASTBIN_SIZE : Nat := 7

/-- Constant `HEADER_SIZE` from mempool.c. -/
def HEADER_SIZE : Nat := 4

/-- Word memory, indexed by chunk base addresses. -/
def Mem : Type := Nat → Nat

/-- Store `v` at address `a`. -/
def writeMem (m : Mem) (a v : Nat) : Mem := fun x => if x = a then v else m x

/-- Function `iceil2` from mempool.c: base-2 integer ceiling by bit smearing on a
32-bit unsigned value. -/
def iceil2 (x0 : Nat) : Nat :=
  let x := (x0 + (2 ^ 32 - 1)) % 2 ^ 32
  let x := x ||| (x >>> 1)
  let x := x ||| (x >>> 2)
  let x := x ||| (x >>> 4)
  let x := x ||| (x >>> 8)
  let x := x ||| (x >>> 16)
  (x + 1) % 2 ^ 32

/-- The size-class search loop of `mpool_alloc`
(`for (i = 0, p = mp->min_pool;; i++, p *= 2) if (p > sz) ...`),
with explicit fuel so that the definition is structurally recursive and
computable by the kernel.  The loop doubles `p` until it exceeds `sz`;
fuel `sz + 1` always suffices (see `classLoopF_spec`). -/
def classLoopF : Nat → Nat → Nat → Nat → Nat × Nat
  | 0, p, _, i => (i, p)
  | fuel + 1, p, sz, i => if sz < p then (i, p) else classLoopF fuel (p * 2) sz (i + 1)

/-- The class-search loop entered with `p = min_pool`, `i = 0`. -/
def classLoop (minPool sz : Nat) : Nat × Nat := classLoopF (sz + 1) minPool sz 0

/-- Class index `i` computed by `mpool_alloc` for a header-adjusted size. -/
def classIdxOf (minPool sz : Nat) : Nat := (classLoop minPool sz).1

/-- Class byte count `szceil` computed by `mpool_alloc` for a
header-adjusted size. -/
def szceilOf (minPool sz : Nat) : Nat := (classLoop minPool sz).2

/-- The fastbin index computed by `mpool_repool`:
`i = (chunk_size >> 4) - 1` on a signed `int`. -/
def repoolFastbinIdx (chunk_size : Nat) : Int := ((chunk_size >>> 4 : Nat) : Int) - 1

/-- Modelled from the spec (for comparison with `classLoopF` only): the
Size-Class Table contract "compute the smallest size class ≥ request",
i.e. the same doubling loop but stopping as soon as `p ≥ sz`. -/
def specClassLoopF : Nat → Nat → Nat → Nat → Nat × Nat
  | 0, p, _, i => (i, p)
  | fuel + 1, p, sz, i => if sz ≤ p then (i, p) else specClassLoopF fuel (p * 2) sz (i + 1)

/-- Smallest size class `≥ sz`, per the spec's words. -/
def specSzceilOf (minPool sz : Nat) : Nat := (specClassLoopF (sz + 1) minPool sz 0).2

/-- The allocator record `struct __mpool`, plus the mmap model and ghost
state.  `ps`/`sizes` have length `pal`; `hs` has length `classCount`
(the initial `cnt`, which in C is implicit: `cnt` doubles as the registry
fill count and starts at the class count); `fastbin` has length
`FASTBIN_SIZE`. -/
structure Mpool where
  cnt : Nat
  pal : Nat
  min_pool : Nat
  max_pool : Nat
  ps : List Nat
  sizes : List Nat
  fastbin : List Nat
  hs : List Nat
  mem : Mem
  classCount : Nat
  pageSize : Nat
  nextBase : Nat
  mapped : List Nat
  carved : Nat → Nat
  oob : List Int

/-- Function `mpool_init` from mempool.c (the `malloc`s of the bookkeeping record
are assumed to succeed). -/
def mpool_init (min2 max2 pageSize : Nat) : Mpool :=
  let cnt := max2 - min2 + 1
  let palen := iceil2 cnt
  { cnt := cnt
    pal := palen
    min_pool := 2 ^ min2
    max_pool := 2 ^ max2
    ps := List.replicate palen 0
    sizes := List.replicate palen 0
    fastbin := List.replicate FASTBIN_SIZE 0
    hs := List.replicate cnt 0
    mem := fun _ => 0
    classCount := cnt
    pageSize := pageSize
    nextBase := pageSize + 1
    mapped := []
    carved := fun _ => 0
    oob := [] }

/-- The free-list threading loop of `mpool_new_pool`: cell `i` (at byte
offset `i * sz`) is made to point at cell `i + 1`, for `i < lim`. -/
def linkChunks (base sz lim : Nat) (m : Mem) : Mem :=
  (List.range lim).foldl (fun mm i => writeMem mm (base + i * sz) (base + (i + 1) * sz)) m

/-- Byte offset of the cell that receives the final `pool[o] = NULL`
write of `mpool_new_pool` (`o` is left at `0` when the loop never runs). -/
def lastOff (sz lim : Nat) : Nat := if lim = 0 then 0 else (lim - 1) * sz

/-- Ghost: record the carve-time capacity `sz` of every cell of a new
arena. -/
def carveCells (base sz lim : Nat) (c : Nat → Nat) : Nat → Nat :=
  (List.range lim).foldl (fun cc i => fun a => if a = base + i * sz then sz else cc a) c

/-- Function `mpool_new_pool sz PAGE_SIZE` from mempool.c: mmap `max sz pageSize`
bytes at a fresh base, thread `pageSize / sz` cells of `sz` bytes into a
free list ending in `NULL`, and (ghost) note the arena as mapped. -/
def newPool (st : Mpool) (sz : Nat) : Nat × Mpool :=
  let total := st.pageSize
  let base := st.nextBase
  let lim := total / sz
  let m := writeMem (linkChunks base sz lim st.mem) (base + lastOff sz lim) 0
  (base,
    { st with
      mem := m
      carved := carveCells base sz lim st.carved
      nextBase := base + max sz total + 1
      mapped := st.mapped ++ [base] })

/-- Function `add_pool` from mempool.c on the success path (both `realloc`s
succeed): grow the arrays when full, then append `(p, sz)` at index
`cnt`. -/
def add_pool_ok (st : Mpool) (p sz : Nat) : Mpool :=
  let st :=
    if st.cnt = st.pal then
      { st with
        pal := st.pal * 2
        ps := st.ps ++ List.replicate st.pal 0
        sizes := st.sizes ++ List.replicate st.pal 0 }
    else st
  { st with
    ps := st.ps.set st.cnt p
    sizes := st.sizes.set st.cnt sz
    cnt := st.cnt + 1 }

/-- The lazy-initialization branch of `mpool_alloc`
(`if (!cur) { pool = mpool_new_pool(...); mp->ps[i] = mp->hs[i] = pool;
mp->sizes[i] = szceil; }`). -/
def lazyPool (st : Mpool) (i szceil : Nat) : Mpool :=
  let (base, st) := newPool st szceil
  { st with
    ps := st.ps.set i base
    sizes := st.sizes.set i szceil
    hs := st.hs.set i base }

/-- The end-of-arena growth branch of `mpool_alloc`
(`if (!(*cur)) { np = mpool_new_pool(...); *cur = &np[0];
add_pool(mp, np, szceil); }`). -/
def growIfEnd (st : Mpool) (cur szceil : Nat) : Mpool :=
  if st.mem cur = 0 then
    let (np, st) := newPool st szceil
    let st := { st with mem := writeMem st.mem cur np }
    add_pool_ok st np szceil
  else st

/-- The tail of `mpool_alloc`'s free-list path:
`mp->hs[i] = *cur; *tmp = szceil; return tmp + 1;`. -/
def popHead (st : Mpool) (i cur szceil : Nat) : Nat × Mpool :=
  let st := { st with hs := st.hs.set i (st.mem cur) }
  (cur + HEADER_SIZE, { st with mem := writeMem st.mem cur szceil })

/-- Assembled free-list path of `mpool_alloc`: lazily create the first arena, grow at
end of arena, then pop the head chunk. -/
def allocFromList (st : Mpool) (i szceil : Nat) : Nat × Mpool :=
  let (cur, st) :=
    if st.hs.getD i 0 = 0 then
      let st := lazyPool st i szceil
      (st.hs.getD i 0, st)
    else (st.hs.getD i 0, st)
  let st := growIfEnd st cur szceil
  popHead st i cur szceil

/-- Fastbin pop of `mpool_alloc`:
`mp->fastbin[i] = *cur;` then at `_done`: `*tmp = szceil; return tmp + 1;`. -/
def popFastbin (st : Mpool) (i cur szceil : Nat) : Nat × Mpool :=
  let st := { st with fastbin := st.fastbin.set i (st.mem cur) }
  (cur + HEADER_SIZE, { st with mem := writeMem st.mem cur szceil })

/-- Function `mpool_alloc` from mempool.c (OS mappings always succeed in the
model).  Returns the user pointer (header address + `HEADER_SIZE`) and the
new state. -/
def mpool_alloc (st : Mpool) (sz0 : Nat) : Nat × Mpool :=
  let sz := sz0 + HEADER_SIZE
  if st.max_pool ≤ sz then
    let base := st.nextBase
    (base + HEADER_SIZE,
      { st with
        mem := writeMem st.mem base sz
        carved := fun a => if a = base then sz else st.carved a
        nextBase := base + sz + 1 })
  else
    let i := classIdxOf st.min_pool sz
    let szceil := szceilOf st.min_pool sz
    if i < FASTBIN_SIZE then
      let cur := st.fastbin.getD i 0
      if cur ≠ 0 then popFastbin st i cur szceil
      else allocFromList st i szceil
    else allocFromList st i szceil

/-- Function `mpool_repool` from mempool.c.  The chunk size is read from the
header `HEADER_SIZE` bytes before the user pointer.  A fastbin index
outside `[0, FASTBIN_SIZE)` that the code would nevertheless use is an
out-of-bounds array access in C; the model records it in the ghost `oob`
list instead of touching any state. -/
def mpool_repool (st : Mpool) (ptr : Nat) : Mpool :=
  let p := ptr - HEADER_SIZE
  let chunk_size := st.mem p
  if st.max_pool < chunk_size then
    st
  else
    let i : Int := repoolFastbinIdx chunk_size
    if i < (FASTBIN_SIZE : Int) then
      if 0 ≤ i then
        let st := { st with mem := writeMem st.mem p (st.fastbin.getD i.toNat 0) }
        { st with fastbin := st.fastbin.set i.toNat p }
      else { st with oob := st.oob ++ [i] }
    else
      let st := { st with mem := writeMem st.mem p (st.hs.getD 0 0) }
      { st with hs := st.hs.set 0 p }

/-- An operation on a live allocator. -/
inductive Op where
  | alloc (sz : Nat)
  | repool (ptr : Nat)
deriving DecidableEq

/-- Trusted-caller side condition: `repool` is only called on pointers
previously returned by `alloc`, which all exceed `HEADER_SIZE`. -/
def Op.valid : Op → Prop
  | .alloc _ => True
  | .repool ptr => HEADER_SIZE < ptr

instance : DecidablePred Op.valid := by
  intro op; cases op <;> simp [Op.valid] <;> infer_instance

/-- One operation on the allocator state. -/
def step (st : Mpool) : Op → Mpool
  | .alloc sz => (mpool_alloc st sz).2
  | .repool ptr => mpool_repool st ptr

/-- Run a sequence of operations. -/
def run (st : Mpool) (ops : List Op) : Mpool := ops.foldl step st

/-- The `munmap` calls issued by `mpool_free`: one `(base, byte count)`
pair per non-null registry entry, the byte count raised to at least one
page (`if (sz < PAGE_SIZE) sz = PAGE_SIZE`). -/
def teardownUnmaps (st : Mpool) : List (Nat × Nat) :=
  ((st.ps.take st.cnt).zip (st.sizes.take st.cnt)).filterMap fun pr =>
    if pr.1 = 0 then none else some (pr.1, max pr.2 st.pageSize)

/-- The pool-registry fields of `struct __mpool` in isolation, for the
failure analysis of `add_pool`. -/
structure RegState where
  cnt : Nat
  pal : Nat
  ps : List Nat
  sizes : List Nat
deriving DecidableEq

/-- Function `add_pool` from mempool.c with the outcome of each `realloc` made
explicit.  Mirrors the C order: when the registry is full, `mp->pal *= 2`
is committed to the state *before* the two reallocations are attempted;
on failure the function returns `-1` (here `none`) with `pal` already
doubled.  On success the arrays grow to the new capacity (`realloc`
preserves contents) and `(p, sz)` is appended at index `cnt`. -/
def add_pool (r : RegState) (p sz : Nat) (npsOk nsizesOk : Bool) : Option Unit × RegState :=
  if r.cnt = r.pal then
    let r' : RegState := { r with pal := r.pal * 2 }
    if npsOk && nsizesOk then
      let r'' : RegState :=
        { r' with
          ps := r.ps ++ List.replicate r.pal 0
          sizes := r.sizes ++ List.replicate r.pal 0 }
      (some (),
        { r'' with
          ps := r''.ps.set r''.cnt p
          sizes := r''.sizes.set r''.cnt sz
          cnt := r''.cnt + 1 })
    else (none, r')
  else
    (some (),
      { r with
        ps := r.ps.set r.cnt p
        sizes := r.sizes.set r.cnt sz
        cnt := r.cnt + 1 })

/-- Function `add_pool` from mempool.c on the full allocator state, with
the outcome of each `realloc` explicit (the same modelling as
`RegState.add_pool`): when the registry is full (`cnt == pal`),
`mp->pal *= 2` is committed before the reallocations are attempted; if
either fails, `-1` (here `none`) is returned with the doubled capacity
committed and nothing registered. -/
def add_poolF (st : Mpool) (p sz : Nat) (npsOk nsizesOk : Bool) : Option Unit × Mpool :=
  if st.cnt = st.pal then
    let st' := { st with pal := st.pal * 2 }
    if npsOk && nsizesOk then
      (some (),
        { st' with
          ps := (st.ps ++ List.replicate st.pal 0).set st.cnt p
          sizes := (st.sizes ++ List.replicate st.pal 0).set st.cnt sz
          cnt := st.cnt + 1 })
    else (none, st')
  else
    (some (),
      { st with
        ps := st.ps.set st.cnt p
        sizes := st.sizes.set st.cnt sz
        cnt := st.cnt + 1 })

/-- End-of-arena branch plus head pop of `mpool_alloc`
(mempool.c:182-201) with failure outcomes explicit.  `mmapOk` is the
outcome of the growth `mpool_new_pool` mmap (on failure the C returns
NULL before anything is mapped or linked); `npsOk`/`nsizesOk` are the
`realloc` outcomes inside `add_pool`.  Note the C order: `*cur = &np[0]`
links the fresh arena into the free list *before* `add_pool` is
attempted, so on registration failure the arena stays mapped and linked
while `alloc` returns NULL. -/
def allocGrowF (st : Mpool) (i cur szceil : Nat) (mmapOk npsOk nsizesOk : Bool) :
    Option Nat × Mpool :=
  if st.mem cur = 0 then
    if mmapOk then
      let (np, st) := newPool st szceil
      let st := { st with mem := writeMem st.mem cur np }
      match add_poolF st np szceil npsOk nsizesOk with
      | (some _, st) =>
        let (ptr, st) := popHead st i cur szceil
        (some ptr, st)
      | (none, st) => (none, st)
    else (none, st)
  else
    let (ptr, st) := popHead st i cur szceil
    (some ptr, st)

/-- Free-list path of `mpool_alloc` with failure outcomes explicit.
`mmapOk1` is the outcome of the lazy first-arena mmap (on failure the C
returns NULL with nothing mapped). -/
def allocFromListF (st : Mpool) (i szceil : Nat) (mmapOk1 mmapOk2 npsOk nsizesOk : Bool) :
    Option Nat × Mpool :=
  if st.hs.getD i 0 = 0 then
    if mmapOk1 then
      let st := lazyPool st i szceil
      allocGrowF st i (st.hs.getD i 0) szceil mmapOk2 npsOk nsizesOk
    else (none, st)
  else
    allocGrowF st i (st.hs.getD i 0) szceil mmapOk2 npsOk nsizesOk

/-- Function `mpool_alloc` from mempool.c with every failure outcome
explicit: `mmapOk1` for the direct or lazy first-arena mmap, `mmapOk2`
for the end-of-arena growth mmap, `npsOk`/`nsizesOk` for the two registry
reallocations inside `add_pool`.  Returns `none` exactly where the C
returns NULL, together with the state the C leaves behind.
`mpool_alloc` is the all-outcomes-succeed slice of this definition
(`mpool_allocF_all_ok`). -/
def mpool_allocF (st : Mpool) (sz0 : Nat) (mmapOk1 mmapOk2 npsOk nsizesOk : Bool) :
    Option Nat × Mpool :=
  let sz := sz0 + HEADER_SIZE
  if st.max_pool ≤ sz then
    if mmapOk1 then
      let base := st.nextBase
      (some (base + HEADER_SIZE),
        { st with
          mem := writeMem st.mem base sz
          carved := fun a => if a = base then sz else st.carved a
          nextBase := base + sz + 1 })
    else (none, st)
  else
    let i := classIdxOf st.min_pool sz
    let szceil := szceilOf st.min_pool sz
    if i < FASTBIN_SIZE then
      let cur := st.fastbin.getD i 0
      if cur ≠ 0 then
        let (ptr, st) := popFastbin st i cur szceil
        (some ptr, st)
      else allocFromListF st i szceil mmapOk1 mmapOk2 npsOk nsizesOk
    else allocFromListF st i szceil mmapOk1 mmapOk2 npsOk nsizesOk

/-- An operation on a live allocator with the failure outcomes of its OS
and bookkeeping calls made explicit. -/
inductive OpF where
  | alloc (sz : Nat) (mmapOk1 mmapOk2 npsOk nsizesOk : Bool)
  | repool (ptr : Nat)

/-- One operation, failure-aware (`mpool_repool` performs no fallible
call other than the non-fatal `munmap`, whose failure changes no
state). -/
def stepF (st : Mpool) : OpF → Mpool
  | .alloc sz a b c d => (mpool_allocF st sz a b c d).2
  | .repool ptr => mpool_repool st ptr

/-- Run a sequence of failure-aware operations. -/
def runF (st : Mpool) (ops : List OpF) : Mpool := ops.foldl stepF st

section Scenarios

/-- The spec's concrete scenario state: `init(3, 12)` with a 4096-byte OS
page. -/
def initState : Mpool := mpool_init 3 12 4096

/-- Step `alloc(10)` on the fresh allocator. -/
def allocTen : Nat × Mpool := mpool_alloc initState 10

/-- Then `release` of the returned pointer. -/
def afterRelease : Mpool := mpool_repool allocTen.2 allocTen.1

/-- Then `alloc(10)` again. -/
def allocTenAgain : Nat × Mpool := mpool_alloc afterRelease 10

/-- Or instead `alloc(2)` (an 8-byte-class request) after the
release. -/
def allocTwoAfter : Nat × Mpool := mpool_alloc afterRelease 2

/-- Steps `alloc(2)` then `release` on a fresh allocator: a minimum-size-class
(8-byte) chunk round trip. -/
def minClassRelease : Mpool :=
  mpool_repool (mpool_alloc initState 2).2 (mpool_alloc initState 2).1

/-- Steps `alloc(200)` (class index 5, 256-byte class) then `release`. -/
def class5Release : Mpool :=
  mpool_repool (mpool_alloc initState 200).2 (mpool_alloc initState 200).1

/-- Steps `alloc(4092)`: header-adjusted size exactly `max_pool = 4096`, hence
directly mapped; then `release`. -/
def boundaryRelease : Mpool :=
  mpool_repool (mpool_alloc initState 4092).2 (mpool_alloc initState 4092).1

/-- A registry that is exactly full (`cnt == pal`), about to be grown. -/
def fullReg : RegState := { cnt := 1, pal := 1, ps := [4097], sizes := [8] }

/-- State after `init(9, 12)` (classes 512B..4096B, so `cnt = pal = 4`:
the registry starts exactly full) with a 4096-byte page, followed by one
successful `alloc(1500)`.  The 2048-byte class packs only two chunks per
page, so the head now sits on the arena's last chunk, whose link is the
empty sentinel. -/
def growthPreState : Mpool :=
  runF (mpool_init 9 12 4096) [OpF.alloc 1500 true true true true]

/-- The second `alloc(1500)`: it takes the end-of-arena growth branch
with the registry full, and the pointer-array `realloc` inside
`add_pool` fails. -/
def growthFailResult : Option Nat × Mpool :=
  mpool_allocF growthPreState 1500 true true false true

/-- The allocator state that failing `alloc` leaves behind. -/
def growthFailState : Mpool := growthFailResult.2

end Scenarios

/-- State invariant tying the pool registry (`ps`/`cnt`/`pal`), the
per-class free-list heads and the ghost list of mapped class arenas
together.  It holds for every state reachable from `mpool_init` by valid
operations. -/
structure Inv (st : Mpool) : Prop where
  len_ps : st.ps.length = st.pal
  len_sizes : st.sizes.length = st.pal
  len_hs : st.hs.length = st.classCount
  cc_pos : 0 < st.classCount
  cc_le : st.classCount ≤ st.cnt
  cnt_le : st.cnt ≤ st.pal
  nb_pos : 0 < st.nextBase
  min_pos : 0 < st.min_pool
  max_eq : st.min_pool * 2 ^ (st.classCount - 1) = st.max_pool
  hs_ps : ∀ i, i < st.classCount → st.ps.getD i 0 ≠ 0 → st.hs.getD i 0 ≠ 0
  perm : ((st.ps.take st.cnt).filter (· != 0)).Perm st.mapped
  fresh : ∀ a ∈ st.mapped, 0 < a ∧ a < st.nextBase
  nodup : st.mapped.Nodup

section ClassLoopLemmas

/-- Fuel-indexed characterization of the class-search loop: with enough
fuel it returns the least doubling count `k` with `p * 2 ^ k > sz`. -/
theorem classLoopF_spec (sz : Nat) :
    ∀ fuel p i, 0 < p → sz < p + fuel →
      ∃ k, classLoopF fuel p sz i = (i + k, p * 2 ^ k) ∧ sz < p * 2 ^ k ∧
        ∀ j, j < k → p * 2 ^ j ≤ sz := by
  intro fuel
  induction fuel with
  | zero =>
    intro p i hp hlt
    exact ⟨0, by simp [classLoopF], by simpa using hlt, by omega⟩
  | succ n ih =>
    intro p i hp hlt
    by_cases h : sz < p
    · exact ⟨0, by simp [classLoopF, h], by simpa using h, by omega⟩
    · obtain ⟨k, hk, hgt, hmin⟩ := ih (p * 2) (i + 1) (by omega) (by omega)
      refine ⟨k + 1, ?_, ?_, ?_⟩
      · have hstep : classLoopF (n + 1) p sz i = classLoopF n (p * 2) sz (i + 1) := by
          simp [classLoopF, h]
        rw [hstep, hk]
        have h1 : i + 1 + k = i + (k + 1) := by omega
        have h2 : p * 2 * 2 ^ k = p * 2 ^ (k + 1) := by ring
        rw [h1, h2]
      · calc sz < p * 2 * 2 ^ k := hgt
          _ = p * 2 ^ (k + 1) := by ring
      · intro j hj
        cases j with
        | zero => simpa using Nat.le_of_not_lt h
        | succ j' =>
          have := hmin j' (by omega)
          calc p * 2 ^ (j' + 1) = p * 2 * 2 ^ j' := by ring
            _ ≤ sz := this

/-- The class chosen by `mpool_alloc` for a header-adjusted size `sz` is
`min_pool * 2 ^ i` for the least `i` making that product exceed `sz`. -/
theorem classLoop_spec (minPool sz : Nat) (hp : 0 < minPool) :
    szceilOf minPool sz = minPool * 2 ^ classIdxOf minPool sz ∧
    sz < szceilOf minPool sz ∧
    ∀ j, sz < minPool * 2 ^ j → classIdxOf minPool sz ≤ j := by
  obtain ⟨k, hk, hgt, hmin⟩ := classLoopF_spec sz (sz + 1) minPool 0 hp (by omega)
  have h1 : classIdxOf minPool sz = k := by
    simp [classIdxOf, classLoop, hk]
  have h2 : szceilOf minPool sz = minPool * 2 ^ k := by
    simp [szceilOf, classLoop, hk]
  refine ⟨by rw [h1, h2], by rw [h2]; exact hgt, ?_⟩
  intro j hj
  rw [h1]
  by_contra hlt
  exact absurd hj (Nat.not_lt.mpr (hmin j (by omega)))

/-- Monotonicity of the chosen byte count in the request. -/
theorem szceilOf_mono (minPool s1 s2 : Nat) (hp : 0 < minPool) (h : s1 ≤ s2) :
    szceilOf minPool s1 ≤ szceilOf minPool s2 := by
  obtain ⟨e1, _, min1⟩ := classLoop_spec minPool s1 hp
  obtain ⟨e2, lt2, _⟩ := classLoop_spec minPool s2 hp
  have hk : classIdxOf minPool s1 ≤ classIdxOf minPool s2 := by
    apply min1
    calc s1 ≤ s2 := h
      _ < szceilOf minPool s2 := lt2
      _ = minPool * 2 ^ classIdxOf minPool s2 := e2
  rw [e1, e2]
  exact Nat.mul_le_mul_left _ (Nat.pow_le_pow_right (by omega) hk)

/-- The class index chosen for a request below `max_pool` stays below the
class count, provided `min_pool * 2 ^ (classCount - 1) = max_pool`. -/
theorem classIdxOf_lt_classCount (minPool maxPool cc sz : Nat) (hp : 0 < minPool)
    (hcc : 0 < cc) (heq : minPool * 2 ^ (cc - 1) = maxPool) (hsz : sz < maxPool) :
    classIdxOf minPool sz < cc := by
  obtain ⟨_, _, hmin⟩ := classLoop_spec minPool sz hp
  have := hmin (cc - 1) (by rw [heq]; exact hsz)
  omega

end ClassLoopLemmas

section ClaimC4

/-- Claim C4 — counterexample.  The claim says alloc chooses the smallest
class `≥` the header-adjusted request; at payload 12 with `min_pool = 8`
the adjusted request is 16, itself a class byte size, yet the code (whose
loop tests `p > sz`) picks 32, the next larger class. -/
theorem C4_geq_class_cex :
    szceilOf 8 (12 + HEADER_SIZE) = 32 ∧ specSzceilOf 8 (12 + HEADER_SIZE) = 16 ∧
    szceilOf 8 (12 + HEADER_SIZE) ≠ specSzceilOf 8 (12 + HEADER_SIZE) := by decide

/-- Claim C4 — amended claim: for every request whose header-adjusted size
is below `maxPool`, the chosen class is the smallest power-of-two class
*strictly greater* than the header-adjusted request (so a request exactly
equal to a class's byte size is served from the next larger class). -/
theorem C4_strict_class (minPool maxPool sz : Nat) (hp : 0 < minPool)
    (hlt : sz + HEADER_SIZE < maxPool) :
    szceilOf minPool (sz + HEADER_SIZE) =
      minPool * 2 ^ classIdxOf minPool (sz + HEADER_SIZE) ∧
    sz + HEADER_SIZE < szceilOf minPool (sz + HEADER_SIZE) ∧
    ∀ j, sz + HEADER_SIZE < minPool * 2 ^ j →
      szceilOf minPool (sz + HEADER_SIZE) ≤ minPool * 2 ^ j := by
  obtain ⟨e, hgt, hmin⟩ := classLoop_spec minPool (sz + HEADER_SIZE) hp
  refine ⟨e, hgt, ?_⟩
  intro j hj
  rw [e]
  exact Nat.mul_le_mul_left _ (Nat.pow_le_pow_right (by omega) (hmin j hj))

/-- Witness for `C4_strict_class` at `minPool = 8`, `maxPool = 4096`,
payload 10. -/
theorem C4_strict_class_witness :
    szceilOf 8 (10 + HEADER_SIZE) = 8 * 2 ^ classIdxOf 8 (10 + HEADER_SIZE) ∧
    10 + HEADER_SIZE < szceilOf 8 (10 + HEADER_SIZE) ∧
    ∀ j, 10 + HEADER_SIZE < 8 * 2 ^ j →
      szceilOf 8 (10 + HEADER_SIZE) ≤ 8 * 2 ^ j :=
  C4_strict_class 8 4096 10 (by decide) (by decide)

end ClaimC4

section ClaimC10

/-- Claim C10 — class monotonicity: for request sizes `s1 ≤ s2`, both below
`maxPool` after the header adjustment, the class byte count chosen for
`s1` is at most the one chosen for `s2`. -/
theorem C10_class_monotone (minPool maxPool s1 s2 : Nat) (hp : 0 < minPool)
    (h12 : s1 ≤ s2) (h1 : s1 + HEADER_SIZE < maxPool) (h2 : s2 + HEADER_SIZE < maxPool) :
    szceilOf minPool (s1 + HEADER_SIZE) ≤ szceilOf minPool (s2 + HEADER_SIZE) :=
  szceilOf_mono minPool (s1 + HEADER_SIZE) (s2 + HEADER_SIZE) hp (by omega)

/-- Witness for `C10_class_monotone` at `minPool = 8`, `maxPool = 4096`,
`s1 = 5`, `s2 = 100`. -/
theorem C10_class_monotone_witness :
    szceilOf 8 (5 + HEADER_SIZE) ≤ szceilOf 8 (100 + HEADER_SIZE) :=
  C10_class_monotone 8 4096 5 100 (by decide) (by decide) (by decide) (by decide)

end ClaimC10

section ClaimC1

/-- Claim C1 — the code violates the claim.  A released 256-byte-class
chunk (alloc class index 5) is pushed onto `hs[0]`, the smallest class's
free-list head, because `mpool_repool` sets `i = 0` before the push
instead of computing the class index; and a released 16-byte chunk is
filed under fastbin slot `(16 >> 4) - 1 = 0` although `mpool_alloc`
consults fastbin slot 1 for the 16-byte class.  Evaluated on
`init(3, 12)` with a 4096-byte page. -/
theorem C1_release_wrong_class :
    classIdxOf 8 (200 + HEADER_SIZE) = 5 ∧ szceilOf 8 (200 + HEADER_SIZE) = 256 ∧
    (mpool_alloc initState 200).1 = 4101 ∧
    class5Release.hs.getD 0 0 = 4097 ∧
    class5Release.hs.getD 5 0 = 4353 ∧
    classIdxOf 8 (10 + HEADER_SIZE) = 1 ∧ repoolFastbinIdx 16 = 0 ∧
    afterRelease.fastbin.getD 0 0 = 4097 ∧
    afterRelease.fastbin.getD 1 0 = 0 := by decide

end ClaimC1

section ClaimC2

/-- Claim C2 — the code violates the claim.  On `init(3, 12)`:
`alloc(10)` returns the chunk at 4097 (pointer 4101) from the 16-byte
class; `release` files it under fastbin slot 0; the second `alloc(10)`
consults fastbin slot 1, finds nothing, and hands out the *next* chunk of
the arena (pointer 4117), not the released one.  No new arena is mapped
(`mapped` stays `[4097]`), but the returned pointer was never previously
handed out, contradicting the round-trip reuse property. -/
theorem C2_roundtrip_fails :
    allocTen.1 = 4101 ∧ allocTenAgain.1 = 4117 ∧ allocTen.1 ≠ allocTenAgain.1 ∧
    allocTen.2.mapped = [4097] ∧ allocTenAgain.2.mapped = [4097] := by decide

end ClaimC2

section ClaimC3

/-- Claim C3 — the code violates the claim.  Releasing a chunk of the
minimum size class (stored header 8, `minExp = 3`) computes
`i = (8 >> 4) - 1 = -1`; the guard `i < FASTBIN_SIZE` holds for the
signed value `-1`, so `mpool_repool` takes the fastbin branch and
accesses `fastbin[-1]`, outside `[0, FASTBIN_SIZE)`. -/
theorem C3_fastbin_oob :
    repoolFastbinIdx 8 = -1 ∧ repoolFastbinIdx 8 < (FASTBIN_SIZE : Int) ∧
    ¬ 0 ≤ repoolFastbinIdx 8 ∧ minClassRelease.oob = [-1] := by decide

end ClaimC3

section ClaimC5

/-- Claim C5 — the code violates the claim at the stated boundary.  On
`init(3, 12)`, `alloc(4092)` has header-adjusted size exactly
`max_pool = 4096`, so it is directly mapped (no class arena is created:
`mapped = []`, and the carve-time size is 4096).  `mpool_repool` then
tests `chunk_size > max_pool`, which fails at equality, and pushes the
directly mapped chunk onto the class-0 free-list head `hs[0]`. -/
theorem C5_oversized_repooled :
    (mpool_alloc initState 4092).1 = 4101 ∧
    (mpool_alloc initState 4092).2.carved 4097 = 4096 ∧
    (mpool_alloc initState 4092).2.mapped = [] ∧
    boundaryRelease.hs.getD 0 0 = 4097 := by decide

end ClaimC5

section ClaimC6

/-- Claim C6 — the code violates the claim.  With a full registry
(`cnt = pal = 1`), `add_pool` doubles `mp->pal` *before* attempting the
two `realloc`s; when the pointer-array reallocation fails it returns
`-1`, but the committed capacity `pal = 2` survives, so the registry
state is modified on a failed registration. -/
theorem C6_growth_not_atomic :
    (add_pool fullReg 8193 16 false true).1 = none ∧
    (add_pool fullReg 8193 16 false true).2.pal = 2 ∧
    fullReg.pal = 1 ∧ (add_pool fullReg 8193 16 false true).2 ≠ fullReg := by decide

end ClaimC6

section ClaimC8

/-- Claim C8 — the code violates the claim.  On `init(3, 12)`:
`alloc(10)` hands out the chunk at 4097 carved as a 16-byte cell (header
16 = its true usable size); after `release`, the chunk sits in fastbin
slot 0, so `alloc(2)` (8-byte class) pops the very same chunk and writes
header 8 — the header no longer equals the chunk's true usable size
(carve-time capacity 16). -/
theorem C8_header_not_true_size :
    allocTen.1 = 4101 ∧ allocTen.2.mem 4097 = 16 ∧ allocTen.2.carved 4097 = 16 ∧
    allocTwoAfter.1 = 4101 ∧ allocTwoAfter.2.mem 4097 = 8 ∧
    allocTwoAfter.2.carved 4097 = 16 := by decide

end ClaimC8

section ListLemmas

theorem getD_set_ne (l : List Nat) {i j : Nat} (v : Nat) (h : i ≠ j) :
    (l.set i v).getD j 0 = l.getD j 0 := by
  simp [List.getD_eq_getElem?_getD, List.getElem?_set_ne h]

theorem getD_set_self (l : List Nat) {i : Nat} (v : Nat) (h : i < l.length) :
    (l.set i v).getD i 0 = v := by
  simp [List.getD_eq_getElem?_getD, List.getElem?_set_self h]

theorem getD_append_left (l l' : List Nat) {n : Nat} (h : n < l.length) :
    (l ++ l').getD n 0 = l.getD n 0 := List.getD_append l l' 0 n h

/-- Setting a zero entry to a nonzero value inserts it into the filtered
view, up to permutation. -/
theorem filter_set_perm (b : Nat) (hb : b ≠ 0) :
    ∀ (l : List Nat) (i : Nat), i < l.length → l.getD i 0 = 0 →
      ((l.set i b).filter (· != 0)).Perm (b :: l.filter (· != 0)) := by
  intro l
  induction l with
  | nil => intro i hi _; simp at hi
  | cons a t ih =>
    intro i hi h0
    cases i with
    | zero =>
      have ha : a = 0 := by simpa using h0
      subst ha
      simp [List.filter_cons, hb]
    | succ i' =>
      have hrec := ih i' (by simpa using hi) (by simpa using h0)
      by_cases ha : a = 0
      · subst ha
        simpa [List.filter_cons] using hrec
      · have hab : (a != 0) = true := by simpa using ha
        simp only [List.set_cons_succ, List.filter_cons, hab, if_pos]
        exact (hrec.cons a).trans (List.Perm.swap b a _)

/-- Writing at index `n` and taking `n + 1` elements appends the new
value to the prefix. -/
theorem take_set_succ (l : List Nat) (n : Nat) (b : Nat) (h : n < l.length) :
    (l.set n b).take (n + 1) = l.take n ++ [b] := by
  rw [List.take_succ]
  have h1 : (l.set n b)[n]? = some b :=
    List.getElem?_set_self (by simpa using h)
  rw [h1, List.set_take]
  have h2 : (l.take n).length ≤ n := by simp
  rw [List.set_eq_of_length_le h2]
  rfl

/-- The pointers unmapped by teardown are exactly the nonzero registry
entries. -/
theorem filterMap_zip_fst (psz : Nat) :
    ∀ (l1 l2 : List Nat), l1.length = l2.length →
      (((l1.zip l2).filterMap fun pr =>
          if pr.1 = 0 then none else some (pr.1, max pr.2 psz)).map Prod.fst)
        = l1.filter (· != 0) := by
  intro l1
  induction l1 with
  | nil => intro l2 _; simp
  | cons a t ih =>
    intro l2 hlen
    cases l2 with
    | nil => simp at hlen
    | cons b t2 =>
      have := ih t2 (by simpa using hlen)
      by_cases ha : a = 0
      · subst ha
        simpa [List.zip_cons_cons, List.filterMap_cons, List.filter_cons] using this
      · have hab : (a != 0) = true := by simpa using ha
        simp [List.zip_cons_cons, List.filterMap_cons, ha, List.filter_cons, hab, this]

/-- Every teardown unmap covers at least one page. -/
theorem filterMap_zip_snd (psz : Nat) (l1 l2 : List Nat) :
    ∀ pr ∈ (l1.zip l2).filterMap fun pr =>
        if pr.1 = 0 then none else some (pr.1, max pr.2 psz), psz ≤ pr.2 := by
  intro pr hpr
  rw [List.mem_filterMap] at hpr
  obtain ⟨a, _, ha⟩ := hpr
  by_cases h : a.1 = 0
  · simp [h] at ha
  · simp only [h, if_neg, if_false] at ha
    cases ha
    simp

end ListLemmas

section ModelCoherence

/-- With both reallocations succeeding, the failure-aware `add_poolF` is
the success-path `add_pool_ok`. -/
theorem add_poolF_ok (st : Mpool) (p sz : Nat) :
    add_poolF st p sz true true = (some (), add_pool_ok st p sz) := by
  by_cases h : st.cnt = st.pal <;> simp [add_poolF, add_pool_ok, h]

/-- With every outcome succeeding, the failure-aware growth-and-pop is
`growIfEnd` followed by `popHead`. -/
theorem allocGrowF_all_ok (st : Mpool) (i cur szceil : Nat) :
    allocGrowF st i cur szceil true true true =
      (some (popHead (growIfEnd st cur szceil) i cur szceil).1,
       (popHead (growIfEnd st cur szceil) i cur szceil).2) := by
  by_cases h : st.mem cur = 0
  · simp only [allocGrowF, growIfEnd, h, if_pos, ite_true, add_poolF_ok]
  · simp only [allocGrowF, growIfEnd, h, if_neg, ite_false]

/-- With every outcome succeeding, the failure-aware free-list path is
`allocFromList`. -/
theorem allocFromListF_all_ok (st : Mpool) (i szceil : Nat) :
    allocFromListF st i szceil true true true true =
      (some (allocFromList st i szceil).1, (allocFromList st i szceil).2) := by
  by_cases h0 : st.hs.getD i 0 = 0
  · simp only [allocFromListF, allocFromList, h0, if_pos, ite_true, allocGrowF_all_ok]
  · simp only [allocFromListF, allocFromList, h0, if_neg, ite_false, allocGrowF_all_ok]

/-- The success-path `mpool_alloc` is the all-outcomes-succeed slice of
the failure-aware `mpool_allocF`. -/
theorem mpool_allocF_all_ok (st : Mpool) (sz : Nat) :
    mpool_allocF st sz true true true true =
      (some (mpool_alloc st sz).1, (mpool_alloc st sz).2) := by
  by_cases hbig : st.max_pool ≤ sz + HEADER_SIZE
  · simp only [mpool_allocF, mpool_alloc, hbig, if_pos, ite_true]
  · by_cases hfb : classIdxOf st.min_pool (sz + HEADER_SIZE) < FASTBIN_SIZE
    · by_cases hcur : st.fastbin.getD (classIdxOf st.min_pool (sz + HEADER_SIZE)) 0 ≠ 0
      · simp only [mpool_allocF, mpool_alloc, hbig, if_neg, ite_false, hfb, if_pos,
          ite_true, popFastbin]
        rw [if_pos hcur, if_pos hcur]
      · simp only [mpool_allocF, mpool_alloc, hbig, if_neg, ite_false, hfb, if_pos,
          ite_true]
        rw [if_neg hcur, if_neg hcur]
        exact allocFromListF_all_ok st _ _
    · simp only [mpool_allocF, mpool_alloc, hbig, if_neg, ite_false, hfb]
      exact allocFromListF_all_ok st _ _

end ModelCoherence

section InvPreservation

/-- Small class counts are not shrunk by `iceil2` (all counts reachable
with `3 ≤ min2 ≤ max2 ≤ 30` are at most 28). -/
theorem le_iceil2 : ∀ n, n < 32 → n ≤ iceil2 n := by decide

/-- The state produced by `mpool_init` satisfies the invariant
(`min2 ≥ 3` is asserted by the C code; `max2 ≤ 30` keeps `1 << max2`
within a positive C `int`). -/
theorem init_inv (min2 max2 psz : Nat) (h3 : 3 ≤ min2) (hle : min2 ≤ max2)
    (h30 : max2 ≤ 30) :
    Inv (mpool_init min2 max2 psz) := by
  have h1 : max2 - min2 + 1 ≤ iceil2 (max2 - min2 + 1) := le_iceil2 _ (by omega)
  refine ⟨?_, ?_, ?_, ?_, ?_, ?_, ?_, ?_, ?_, ?_, ?_, ?_, ?_⟩
  · simp [mpool_init]
  · simp [mpool_init]
  · simp [mpool_init]
  · simp [mpool_init]
  · simp [mpool_init]
  · simpa [mpool_init] using h1
  · simp [mpool_init]
  · simp [mpool_init]
  · show (2 : Nat) ^ min2 * 2 ^ (max2 - min2 + 1 - 1) = 2 ^ max2
    rw [← Nat.pow_add]
    congr 1
    omega
  · intro i _ hps
    exfalso
    apply hps
    show (List.replicate (iceil2 (max2 - min2 + 1)) 0).getD i 0 = 0
    rw [List.getD_eq_getElem?_getD, List.getElem?_replicate]
    split <;> rfl
  · simp [mpool_init, List.take_replicate, List.filter_replicate]
  · simp [mpool_init]
  · simp [mpool_init]

/-- Function `newPool` leaves every registry and free-list field unchanged, maps a
fresh nonzero base, and appends exactly that base to the ghost arena
list. -/
theorem newPool_fields (st : Mpool) (sz : Nat) :
    (newPool st sz).1 = st.nextBase ∧
    (newPool st sz).2.ps = st.ps ∧ (newPool st sz).2.sizes = st.sizes ∧
    (newPool st sz).2.hs = st.hs ∧ (newPool st sz).2.cnt = st.cnt ∧
    (newPool st sz).2.pal = st.pal ∧ (newPool st sz).2.classCount = st.classCount ∧
    (newPool st sz).2.min_pool = st.min_pool ∧ (newPool st sz).2.max_pool = st.max_pool ∧
    (newPool st sz).2.mapped = st.mapped ++ [st.nextBase] ∧
    (newPool st sz).2.nextBase = st.nextBase + max sz st.pageSize + 1 := by
  refine ⟨rfl, rfl, rfl, rfl, rfl, rfl, rfl, rfl, rfl, rfl, rfl⟩

/-- Invariant preservation for the lazy first-arena branch of
`mpool_alloc`. -/
theorem lazyPool_inv (st : Mpool) (i szceil : Nat) (hInv : Inv st)
    (hi : i < st.classCount) (hhs : st.hs.getD i 0 = 0) :
    Inv (lazyPool st i szceil) ∧ (lazyPool st i szceil).hs.getD i 0 ≠ 0 := by
  have hps0 : st.ps.getD i 0 = 0 := by
    by_contra h
    exact absurd (hInv.hs_ps i hi h) (by simpa using hhs)
  have hnb := hInv.nb_pos
  have hbne : st.nextBase ≠ 0 := by omega
  have hilt : i < st.ps.length := by
    rw [hInv.len_ps]; exact lt_of_lt_of_le hi (le_trans hInv.cc_le hInv.cnt_le)
  have hihs : i < st.hs.length := by rw [hInv.len_hs]; exact hi
  constructor
  · refine ⟨?_, ?_, ?_, ?_, ?_, ?_, ?_, ?_, ?_, ?_, ?_, ?_, ?_⟩
    · simp [lazyPool, newPool, hInv.len_ps]
    · simp [lazyPool, newPool, hInv.len_sizes]
    · simp [lazyPool, newPool, hInv.len_hs]
    · exact hInv.cc_pos
    · exact hInv.cc_le
    · exact hInv.cnt_le
    · have : 0 < st.nextBase + max szceil st.pageSize + 1 := by omega
      simpa [lazyPool, newPool] using this
    · exact hInv.min_pos
    · exact hInv.max_eq
    · intro j hj hpsj
      show (st.hs.set i st.nextBase).getD j 0 ≠ 0
      by_cases hij : i = j
      · subst hij
        rw [getD_set_self _ _ hihs]
        exact hbne
      · rw [getD_set_ne _ _ hij]
        apply hInv.hs_ps j hj
        have h' : (st.ps.set i st.nextBase).getD j 0 ≠ 0 := hpsj
        rw [getD_set_ne _ _ hij] at h'
        exact h'
    · show (((st.ps.set i st.nextBase).take st.cnt).filter (· != 0)).Perm
        (st.mapped ++ [st.nextBase])
      have hcnt : i < st.cnt := lt_of_lt_of_le hi hInv.cc_le
      rw [List.set_take]
      have hperm := filter_set_perm st.nextBase hbne (st.ps.take st.cnt) i
        (by simp only [List.length_take]; exact lt_min hcnt hilt) (by
          rw [List.getD_eq_getElem?_getD, List.getElem?_take, if_pos hcnt,
            ← List.getD_eq_getElem?_getD]
          exact hps0)
      refine hperm.trans ?_
      refine List.Perm.trans (hInv.perm.cons st.nextBase) ?_
      exact (List.perm_append_singleton _ _).symm
    · intro a ha
      simp only [lazyPool, newPool, List.mem_append, List.mem_singleton] at ha
      rcases ha with ha | ha
      · have := hInv.fresh a ha
        constructor
        · exact this.1
        · show a < st.nextBase + max szceil st.pageSize + 1
          omega
      · subst ha
        exact ⟨hnb, by show st.nextBase < st.nextBase + max szceil st.pageSize + 1; omega⟩
    · show (st.mapped ++ [st.nextBase]).Nodup
      apply (List.perm_append_singleton _ _).symm.nodup
      rw [List.nodup_cons]
      refine ⟨?_, hInv.nodup⟩
      intro hmem
      have := (hInv.fresh _ hmem).2
      omega
  · show (st.hs.set i st.nextBase).getD i 0 ≠ 0
    rw [getD_set_self _ _ hihs]
    exact hbne

/-- Effect of a successful `add_pool` on the registry: all non-registry
fields untouched, the class slots untouched, and `p` appended to the
registered view. -/
theorem add_pool_ok_spec (st : Mpool) (p sz : Nat)
    (len_ps : st.ps.length = st.pal) (len_sizes : st.sizes.length = st.pal)
    (cnt_le : st.cnt ≤ st.pal) (pal_pos : 0 < st.pal) (hp0 : p ≠ 0) :
    (add_pool_ok st p sz).ps.length = (add_pool_ok st p sz).pal ∧
    (add_pool_ok st p sz).sizes.length = (add_pool_ok st p sz).pal ∧
    (add_pool_ok st p sz).cnt ≤ (add_pool_ok st p sz).pal ∧
    (add_pool_ok st p sz).cnt = st.cnt + 1 ∧
    (add_pool_ok st p sz).hs = st.hs ∧
    (add_pool_ok st p sz).mapped = st.mapped ∧
    (add_pool_ok st p sz).nextBase = st.nextBase ∧
    (add_pool_ok st p sz).min_pool = st.min_pool ∧
    (add_pool_ok st p sz).max_pool = st.max_pool ∧
    (add_pool_ok st p sz).classCount = st.classCount ∧
    (add_pool_ok st p sz).mem = st.mem ∧
    (∀ j, j < st.cnt → (add_pool_ok st p sz).ps.getD j 0 = st.ps.getD j 0) ∧
    (((add_pool_ok st p sz).ps.take (add_pool_ok st p sz).cnt).filter (· != 0)).Perm
      (((st.ps.take st.cnt).filter (· != 0)) ++ [p]) := by
  have hpb : (p != 0) = true := by simpa using hp0
  by_cases h : st.cnt = st.pal
  · have hlen2 : (st.ps ++ List.replicate st.pal 0).length = st.pal + st.pal := by
      simp [len_ps]
    have hcntlt : st.pal < (st.ps ++ List.replicate st.pal 0).length := by
      rw [hlen2]; omega
    have htake : (st.ps ++ List.replicate st.pal 0).take st.pal = st.ps.take st.pal :=
      List.take_append_of_le_length (by omega)
    refine ⟨?_, ?_, ?_, ?_, ?_, ?_, ?_, ?_, ?_, ?_, ?_, ?_, ?_⟩ <;>
      simp only [add_pool_ok, h, if_pos, if_true, ite_true]
    · simp only [List.length_set, List.length_append, List.length_replicate, len_ps]
      omega
    · simp only [List.length_set, List.length_append, List.length_replicate, len_sizes]
      omega
    · omega
    · intro j hj
      rw [getD_set_ne _ _ (by omega : st.pal ≠ j)]
      exact getD_append_left _ _ (by omega)
    · rw [take_set_succ _ _ _ hcntlt, htake, List.filter_append]
      simp only [List.filter_cons, hpb, if_pos, List.filter_nil]
      exact List.Perm.refl _
  · have hcntlt : st.cnt < st.ps.length := by omega
    refine ⟨?_, ?_, ?_, ?_, ?_, ?_, ?_, ?_, ?_, ?_, ?_, ?_, ?_⟩ <;>
      simp only [add_pool_ok, h, if_neg, if_false, ite_false]
    · simp only [List.length_set, len_ps]
    · simp only [List.length_set, len_sizes]
    · omega
    · intro j hj
      exact getD_set_ne _ _ (by omega : st.cnt ≠ j)
    · rw [take_set_succ _ _ _ hcntlt, List.filter_append]
      simp only [List.filter_cons, hpb, if_pos, List.filter_nil]
      exact List.Perm.refl _

/-- Invariant preservation for the end-of-arena growth branch, which also
guarantees the head chunk's link is non-null afterwards. -/
theorem growIfEnd_inv (st : Mpool) (cur szceil : Nat) (hInv : Inv st) :
    Inv (growIfEnd st cur szceil) ∧ (growIfEnd st cur szceil).mem cur ≠ 0 ∧
    (growIfEnd st cur szceil).hs = st.hs ∧
    (growIfEnd st cur szceil).classCount = st.classCount := by
  by_cases h : st.mem cur = 0
  · have hnb := hInv.nb_pos
    have hbne : st.nextBase ≠ 0 := by omega
    have hpal_pos : 0 < st.pal :=
      lt_of_lt_of_le hInv.cc_pos (le_trans hInv.cc_le hInv.cnt_le)
    -- the state passed to add_pool_ok
    set st3 : Mpool :=
      { (newPool st szceil).2 with
        mem := writeMem (newPool st szceil).2.mem cur st.nextBase } with hst3
    have hgrow : growIfEnd st cur szceil = add_pool_ok st3 st.nextBase szceil := by
      simp only [growIfEnd, h, if_pos, if_true, ite_true, newPool, hst3]
    have hspec := add_pool_ok_spec st3 st.nextBase szceil
      (by simpa [hst3, newPool] using hInv.len_ps)
      (by simpa [hst3, newPool] using hInv.len_sizes)
      (by simpa [hst3, newPool] using hInv.cnt_le)
      (by simpa [hst3, newPool] using hpal_pos) hbne
    obtain ⟨s1, s2, s3, s4, s5, s6, s7, s8, s9, s10, s11, s12, s13⟩ := hspec
    rw [hgrow]
    have hccX : (add_pool_ok st3 st.nextBase szceil).classCount = st.classCount := by
      rw [s10]; rfl
    refine ⟨⟨s1, s2, ?_, ?_, ?_, s3, ?_, ?_, ?_, ?_, ?_, ?_, ?_⟩, ?_, ?_, ?_⟩
    · rw [s5, hccX]
      show st.hs.length = st.classCount
      exact hInv.len_hs
    · rw [hccX]; exact hInv.cc_pos
    · rw [hccX, s4]
      show st.classCount ≤ st.cnt + 1
      have := hInv.cc_le
      omega
    · rw [s7]
      show 0 < st.nextBase + max szceil st.pageSize + 1
      omega
    · rw [s8]; exact hInv.min_pos
    · rw [s8, s9, hccX]
      show st.min_pool * 2 ^ (st.classCount - 1) = st.max_pool
      exact hInv.max_eq
    · intro j hj hpsj
      rw [hccX] at hj
      rw [s5]
      show st.hs.getD j 0 ≠ 0
      apply hInv.hs_ps j hj
      rw [s12 j (lt_of_lt_of_le hj hInv.cc_le)] at hpsj
      exact hpsj
    · refine s13.trans ?_
      rw [s6]
      show ((((st.ps.take st.cnt).filter (· != 0)) ++ [st.nextBase]).Perm
        (st.mapped ++ [st.nextBase]))
      exact hInv.perm.append_right _
    · rw [s6]
      intro a ha
      show 0 < a ∧ a < (add_pool_ok st3 st.nextBase szceil).nextBase
      rw [s7]
      show 0 < a ∧ a < st.nextBase + max szceil st.pageSize + 1
      have hmem : a ∈ st.mapped ++ [st.nextBase] := ha
      rw [List.mem_append, List.mem_singleton] at hmem
      rcases hmem with hmem | hmem
      · have := hInv.fresh a hmem
        omega
      · omega
    · rw [s6]
      show (st.mapped ++ [st.nextBase]).Nodup
      apply (List.perm_append_singleton _ _).symm.nodup
      rw [List.nodup_cons]
      refine ⟨?_, hInv.nodup⟩
      intro hmem
      have := (hInv.fresh _ hmem).2
      omega
    · rw [s11]
      show writeMem (newPool st szceil).2.mem cur st.nextBase cur ≠ 0
      simp [writeMem]
      omega
    · rw [s5, hst3]
      rfl
    · rw [hccX]
  · have hne : growIfEnd st cur szceil = st := by
      simp only [growIfEnd, h, if_neg, ite_false]
    rw [hne]
    exact ⟨hInv, h, rfl, rfl⟩

/-- Invariant preservation for the head pop (the free-list head is moved
to the chunk's link, which the growth branch has made non-null). -/
theorem popHead_inv (st : Mpool) (i cur szceil : Nat) (hInv : Inv st)
    (hmem : st.mem cur ≠ 0) : Inv (popHead st i cur szceil).2 := by
  refine ⟨hInv.len_ps, hInv.len_sizes, ?_, hInv.cc_pos, hInv.cc_le, hInv.cnt_le,
    hInv.nb_pos, hInv.min_pos, hInv.max_eq, ?_, hInv.perm, hInv.fresh, hInv.nodup⟩
  · show (st.hs.set i (st.mem cur)).length = st.classCount
    rw [List.length_set]; exact hInv.len_hs
  · intro j hj hpsj
    show (st.hs.set i (st.mem cur)).getD j 0 ≠ 0
    by_cases hij : i = j
    · subst hij
      rw [getD_set_self _ _ (by rw [hInv.len_hs]; exact hj)]
      exact hmem
    · rw [getD_set_ne _ _ hij]
      exact hInv.hs_ps j hj hpsj

/-- Invariant preservation for the whole free-list path of
`mpool_alloc`. -/
theorem allocFromList_inv (st : Mpool) (i szceil : Nat) (hInv : Inv st)
    (hi : i < st.classCount) : Inv (allocFromList st i szceil).2 := by
  by_cases h0 : st.hs.getD i 0 = 0
  · obtain ⟨hInv1, _⟩ := lazyPool_inv st i szceil hInv hi h0
    have hAFL : (allocFromList st i szceil).2 =
        (popHead
          (growIfEnd (lazyPool st i szceil) ((lazyPool st i szceil).hs.getD i 0) szceil)
          i ((lazyPool st i szceil).hs.getD i 0) szceil).2 := by
      simp only [allocFromList, h0, if_pos, ite_true]
    rw [hAFL]
    obtain ⟨hInv2, hmem2, _, _⟩ :=
      growIfEnd_inv (lazyPool st i szceil) ((lazyPool st i szceil).hs.getD i 0) szceil hInv1
    exact popHead_inv _ i _ szceil hInv2 hmem2
  · have hAFL : (allocFromList st i szceil).2 =
        (popHead (growIfEnd st (st.hs.getD i 0) szceil) i (st.hs.getD i 0) szceil).2 := by
      simp only [allocFromList, h0, if_neg, ite_false]
    rw [hAFL]
    obtain ⟨hInv2, hmem2, _, _⟩ := growIfEnd_inv st (st.hs.getD i 0) szceil hInv
    exact popHead_inv _ i _ szceil hInv2 hmem2

/-- Invariant preservation for `mpool_alloc`. -/
theorem mpool_alloc_inv (st : Mpool) (sz : Nat) (hInv : Inv st) :
    Inv (mpool_alloc st sz).2 := by
  by_cases hbig : st.max_pool ≤ sz + HEADER_SIZE
  · have halloc : (mpool_alloc st sz).2 =
        { st with
          mem := writeMem st.mem st.nextBase (sz + HEADER_SIZE)
          carved := fun a => if a = st.nextBase then sz + HEADER_SIZE else st.carved a
          nextBase := st.nextBase + (sz + HEADER_SIZE) + 1 } := by
      simp only [mpool_alloc, hbig, if_pos, ite_true]
    rw [halloc]
    refine ⟨hInv.len_ps, hInv.len_sizes, hInv.len_hs, hInv.cc_pos, hInv.cc_le,
      hInv.cnt_le, ?_, hInv.min_pos, hInv.max_eq, hInv.hs_ps, hInv.perm, ?_, hInv.nodup⟩
    · show 0 < st.nextBase + (sz + HEADER_SIZE) + 1
      omega
    · intro a ha
      have := hInv.fresh a ha
      refine ⟨this.1, ?_⟩
      show a < st.nextBase + (sz + HEADER_SIZE) + 1
      omega
  · have hi : classIdxOf st.min_pool (sz + HEADER_SIZE) < st.classCount :=
      classIdxOf_lt_classCount st.min_pool st.max_pool st.classCount (sz + HEADER_SIZE)
        hInv.min_pos hInv.cc_pos hInv.max_eq (by omega)
    by_cases hfb : classIdxOf st.min_pool (sz + HEADER_SIZE) < FASTBIN_SIZE
    · by_cases hcur : st.fastbin.getD (classIdxOf st.min_pool (sz + HEADER_SIZE)) 0 ≠ 0
      · have halloc : (mpool_alloc st sz).2 =
            (popFastbin st (classIdxOf st.min_pool (sz + HEADER_SIZE))
              (st.fastbin.getD (classIdxOf st.min_pool (sz + HEADER_SIZE)) 0)
              (szceilOf st.min_pool (sz + HEADER_SIZE))).2 := by
          simp only [mpool_alloc, hbig, if_neg, ite_false, hfb, if_pos, ite_true]
          rw [if_pos hcur]
        rw [halloc]
        exact ⟨hInv.len_ps, hInv.len_sizes, hInv.len_hs, hInv.cc_pos, hInv.cc_le,
          hInv.cnt_le, hInv.nb_pos, hInv.min_pos, hInv.max_eq, hInv.hs_ps, hInv.perm,
          hInv.fresh, hInv.nodup⟩
      · have halloc : (mpool_alloc st sz).2 =
            (allocFromList st (classIdxOf st.min_pool (sz + HEADER_SIZE))
              (szceilOf st.min_pool (sz + HEADER_SIZE))).2 := by
          simp only [mpool_alloc, hbig, if_neg, ite_false, hfb, if_pos, ite_true]
          rw [if_neg hcur]
        rw [halloc]
        exact allocFromList_inv st _ _ hInv hi
    · have halloc : (mpool_alloc st sz).2 =
          (allocFromList st (classIdxOf st.min_pool (sz + HEADER_SIZE))
            (szceilOf st.min_pool (sz + HEADER_SIZE))).2 := by
        simp only [mpool_alloc, hbig, if_neg, ite_false, hfb]
      rw [halloc]
      exact allocFromList_inv st _ _ hInv hi

/-- Invariant preservation for `mpool_repool` on a trusted-caller
pointer. -/
theorem mpool_repool_inv (st : Mpool) (ptr : Nat) (hInv : Inv st)
    (hv : HEADER_SIZE < ptr) : Inv (mpool_repool st ptr) := by
  by_cases h1 : st.max_pool < st.mem (ptr - HEADER_SIZE)
  · have : mpool_repool st ptr = st := by
      simp only [mpool_repool, h1, if_pos, ite_true]
    rw [this]; exact hInv
  · by_cases h2 : repoolFastbinIdx (st.mem (ptr - HEADER_SIZE)) < (FASTBIN_SIZE : Int)
    · by_cases h3 : 0 ≤ repoolFastbinIdx (st.mem (ptr - HEADER_SIZE))
      · have hrp : mpool_repool st ptr =
            { st with
              mem := writeMem st.mem (ptr - HEADER_SIZE)
                (st.fastbin.getD (repoolFastbinIdx (st.mem (ptr - HEADER_SIZE))).toNat 0)
              fastbin := st.fastbin.set
                (repoolFastbinIdx (st.mem (ptr - HEADER_SIZE))).toNat
                (ptr - HEADER_SIZE) } := by
          simp only [mpool_repool, h1, if_neg, ite_false, h2, if_pos, ite_true, h3]
        rw [hrp]
        exact ⟨hInv.len_ps, hInv.len_sizes, hInv.len_hs, hInv.cc_pos, hInv.cc_le,
          hInv.cnt_le, hInv.nb_pos, hInv.min_pos, hInv.max_eq, hInv.hs_ps, hInv.perm,
          hInv.fresh, hInv.nodup⟩
      · have hrp : mpool_repool st ptr =
            { st with oob := st.oob ++ [repoolFastbinIdx (st.mem (ptr - HEADER_SIZE))] } := by
          simp only [mpool_repool, h1, if_neg, ite_false, h2, if_pos, ite_true, h3]
        rw [hrp]
        exact ⟨hInv.len_ps, hInv.len_sizes, hInv.len_hs, hInv.cc_pos, hInv.cc_le,
          hInv.cnt_le, hInv.nb_pos, hInv.min_pos, hInv.max_eq, hInv.hs_ps, hInv.perm,
          hInv.fresh, hInv.nodup⟩
    · have hrp : mpool_repool st ptr =
          { st with
            mem := writeMem st.mem (ptr - HEADER_SIZE) (st.hs.getD 0 0)
            hs := st.hs.set 0 (ptr - HEADER_SIZE) } := by
        simp only [mpool_repool, h1, if_neg, ite_false, h2]
      rw [hrp]
      refine ⟨hInv.len_ps, hInv.len_sizes, ?_, hInv.cc_pos, hInv.cc_le, hInv.cnt_le,
        hInv.nb_pos, hInv.min_pos, hInv.max_eq, ?_, hInv.perm, hInv.fresh, hInv.nodup⟩
      · show (st.hs.set 0 (ptr - HEADER_SIZE)).length = st.classCount
        rw [List.length_set]; exact hInv.len_hs
      · intro j hj hpsj
        show (st.hs.set 0 (ptr - HEADER_SIZE)).getD j 0 ≠ 0
        by_cases hj0 : (0 : Nat) = j
        · subst hj0
          rw [getD_set_self _ _ (by rw [hInv.len_hs]; exact hInv.cc_pos)]
          have : HEADER_SIZE < ptr := hv
          simp only [HEADER_SIZE] at this ⊢
          omega
        · rw [getD_set_ne _ _ hj0]
          exact hInv.hs_ps j hj hpsj

/-- Invariant preservation for one operation. -/
theorem step_inv (st : Mpool) (op : Op) (hInv : Inv st) (hv : op.valid) :
    Inv (step st op) := by
  cases op with
  | alloc sz => exact mpool_alloc_inv st sz hInv
  | repool ptr => exact mpool_repool_inv st ptr hInv hv

/-- Invariant preservation along any valid operation sequence. -/
theorem run_inv (st : Mpool) (ops : List Op) (hInv : Inv st)
    (hv : ∀ op ∈ ops, op.valid) : Inv (run st ops) := by
  induction ops generalizing st with
  | nil => exact hInv
  | cons op ops ih =>
    exact ih (step st op) (step_inv st op hInv (hv op (by simp)))
      (fun o ho => hv o (by simp [ho]))

/-- Once non-null, a free-list head stays non-null across the free-list
allocation path. -/
theorem allocFromList_hs_mono (st : Mpool) (i szceil : Nat) (hInv : Inv st)
    (hi : i < st.classCount) (j : Nat) (h : st.hs.getD j 0 ≠ 0) :
    (allocFromList st i szceil).2.hs.getD j 0 ≠ 0 := by
  by_cases h0 : st.hs.getD i 0 = 0
  · obtain ⟨hInv1, _⟩ := lazyPool_inv st i szceil hInv hi h0
    have hAFL : (allocFromList st i szceil).2 =
        (popHead
          (growIfEnd (lazyPool st i szceil) ((lazyPool st i szceil).hs.getD i 0) szceil)
          i ((lazyPool st i szceil).hs.getD i 0) szceil).2 := by
      simp only [allocFromList, h0, if_pos, ite_true]
    rw [hAFL]
    obtain ⟨hInv2, hmem2, hhs2, hcc2⟩ :=
      growIfEnd_inv (lazyPool st i szceil) ((lazyPool st i szceil).hs.getD i 0) szceil hInv1
    set st2 := growIfEnd (lazyPool st i szceil) ((lazyPool st i szceil).hs.getD i 0) szceil
    show (st2.hs.set i (st2.mem ((lazyPool st i szceil).hs.getD i 0))).getD j 0 ≠ 0
    by_cases hij : i = j
    · subst hij
      rw [getD_set_self _ _ (by rw [hInv2.len_hs, hcc2]; exact hi)]
      exact hmem2
    · rw [getD_set_ne _ _ hij, hhs2]
      show (lazyPool st i szceil).hs.getD j 0 ≠ 0
      show (st.hs.set i st.nextBase).getD j 0 ≠ 0
      rw [getD_set_ne _ _ hij]
      exact h
  · have hAFL : (allocFromList st i szceil).2 =
        (popHead (growIfEnd st (st.hs.getD i 0) szceil) i (st.hs.getD i 0) szceil).2 := by
      simp only [allocFromList, h0, if_neg, ite_false]
    rw [hAFL]
    obtain ⟨hInv2, hmem2, hhs2, hcc2⟩ := growIfEnd_inv st (st.hs.getD i 0) szceil hInv
    set st2 := growIfEnd st (st.hs.getD i 0) szceil
    show (st2.hs.set i (st2.mem (st.hs.getD i 0))).getD j 0 ≠ 0
    by_cases hij : i = j
    · subst hij
      rw [getD_set_self _ _ (by rw [hInv2.len_hs, hcc2]; exact hi)]
      exact hmem2
    · rw [getD_set_ne _ _ hij, hhs2]
      exact h

/-- Once non-null, a free-list head stays non-null across one
operation. -/
theorem step_hs_mono (st : Mpool) (op : Op) (hInv : Inv st) (hv : op.valid)
    (j : Nat) (h : st.hs.getD j 0 ≠ 0) : (step st op).hs.getD j 0 ≠ 0 := by
  cases op with
  | alloc sz =>
    show (mpool_alloc st sz).2.hs.getD j 0 ≠ 0
    by_cases hbig : st.max_pool ≤ sz + HEADER_SIZE
    · have halloc : (mpool_alloc st sz).2.hs = st.hs := by
        simp only [mpool_alloc, hbig, if_pos, ite_true]
      rw [halloc]; exact h
    · have hi : classIdxOf st.min_pool (sz + HEADER_SIZE) < st.classCount :=
        classIdxOf_lt_classCount st.min_pool st.max_pool st.classCount (sz + HEADER_SIZE)
          hInv.min_pos hInv.cc_pos hInv.max_eq (by omega)
      by_cases hfb : classIdxOf st.min_pool (sz + HEADER_SIZE) < FASTBIN_SIZE
      · by_cases hcur : st.fastbin.getD (classIdxOf st.min_pool (sz + HEADER_SIZE)) 0 ≠ 0
        · have halloc : (mpool_alloc st sz).2.hs = st.hs := by
            simp only [mpool_alloc, hbig, if_neg, ite_false, hfb, if_pos, ite_true]
            rw [if_pos hcur]
            rfl
          rw [halloc]; exact h
        · have halloc : (mpool_alloc st sz).2 =
              (allocFromList st (classIdxOf st.min_pool (sz + HEADER_SIZE))
                (szceilOf st.min_pool (sz + HEADER_SIZE))).2 := by
            simp only [mpool_alloc, hbig, if_neg, ite_false, hfb, if_pos, ite_true]
            rw [if_neg hcur]
          rw [halloc]
          exact allocFromList_hs_mono st _ _ hInv hi j h
      · have halloc : (mpool_alloc st sz).2 =
            (allocFromList st (classIdxOf st.min_pool (sz + HEADER_SIZE))
              (szceilOf st.min_pool (sz + HEADER_SIZE))).2 := by
          simp only [mpool_alloc, hbig, if_neg, ite_false, hfb]
        rw [halloc]
        exact allocFromList_hs_mono st _ _ hInv hi j h
  | repool ptr =>
    show (mpool_repool st ptr).hs.getD j 0 ≠ 0
    by_cases h1 : st.max_pool < st.mem (ptr - HEADER_SIZE)
    · have : mpool_repool st ptr = st := by
        simp only [mpool_repool, h1, if_pos, ite_true]
      rw [this]; exact h
    · by_cases h2 : repoolFastbinIdx (st.mem (ptr - HEADER_SIZE)) < (FASTBIN_SIZE : Int)
      · by_cases h3 : 0 ≤ repoolFastbinIdx (st.mem (ptr - HEADER_SIZE))
        · have hrp : (mpool_repool st ptr).hs = st.hs := by
            simp only [mpool_repool, h1, if_neg, ite_false, h2, if_pos, ite_true, h3]
          rw [hrp]; exact h
        · have hrp : (mpool_repool st ptr).hs = st.hs := by
            simp only [mpool_repool, h1, if_neg, ite_false, h2, if_pos, ite_true, h3]
          rw [hrp]; exact h
      · have hrp : (mpool_repool st ptr).hs = st.hs.set 0 (ptr - HEADER_SIZE) := by
          simp only [mpool_repool, h1, if_neg, ite_false, h2]
        rw [hrp]
        by_cases hj0 : (0 : Nat) = j
        · subst hj0
          rw [getD_set_self _ _ (by rw [hInv.len_hs]; exact hInv.cc_pos)]
          have hv' : HEADER_SIZE < ptr := hv
          simp only [HEADER_SIZE] at hv' ⊢
          omega
        · rw [getD_set_ne _ _ hj0]
          exact h

/-- Once non-null, a free-list head stays non-null along any valid
operation sequence. -/
theorem run_hs_mono (st : Mpool) (ops : List Op) (hInv : Inv st)
    (hv : ∀ op ∈ ops, op.valid) (j : Nat) (h : st.hs.getD j 0 ≠ 0) :
    (run st ops).hs.getD j 0 ≠ 0 := by
  induction ops generalizing st with
  | nil => exact h
  | cons op ops ih =>
    exact ih (step st op) (step_inv st op hInv (hv op (by simp)))
      (fun o ho => hv o (by simp [ho]))
      (step_hs_mono st op hInv (hv op (by simp)) j h)

end InvPreservation

/-- Contrast result for the registry analysis: on traces where every OS
mapping and registry reallocation succeeds (the `run`/`Op` model), the
`munmap` calls of teardown hit exactly the ghost list of class arenas
ever mapped — a duplicate-free permutation — and every unmap covers at
least one OS page.  The registration claim fails only on the `add_pool`
failure path, exhibited by `C7_growth_arena_unregistered` below. -/
theorem registry_teardown_success_paths (min2 max2 psz : Nat) (h3 : 3 ≤ min2)
    (hle : min2 ≤ max2) (h30 : max2 ≤ 30) (ops : List Op)
    (hv : ∀ op ∈ ops, op.valid) :
    ((teardownUnmaps (run (mpool_init min2 max2 psz) ops)).map Prod.fst).Perm
      (run (mpool_init min2 max2 psz) ops).mapped ∧
    (run (mpool_init min2 max2 psz) ops).mapped.Nodup ∧
    ∀ pr ∈ teardownUnmaps (run (mpool_init min2 max2 psz) ops),
      (run (mpool_init min2 max2 psz) ops).pageSize ≤ pr.2 := by
  have hInv := run_inv _ ops (init_inv min2 max2 psz h3 hle h30) hv
  set st := run (mpool_init min2 max2 psz) ops
  have hlen : (st.ps.take st.cnt).length = (st.sizes.take st.cnt).length := by
    simp only [List.length_take, hInv.len_ps, hInv.len_sizes]
  have hmapfst : (teardownUnmaps st).map Prod.fst = (st.ps.take st.cnt).filter (· != 0) :=
    filterMap_zip_fst st.pageSize _ _ hlen
  refine ⟨?_, hInv.nodup, ?_⟩
  · rw [hmapfst]
    exact hInv.perm
  · exact filterMap_zip_snd st.pageSize _ _

section ClaimC7

/-- Claim C7 — the code violates the claim on the end-of-arena growth
path.  On `init(9, 12)` (registry exactly full: `cnt = pal = 4`) with a
4096-byte page: the first `alloc(1500)` maps arena 4097 for the
2048-byte class (two chunks, head left on the last chunk 6145 whose link
is the empty sentinel); the second `alloc(1500)` takes the growth
branch, maps arena 8194 and links it (`mem 6145 = 8194`, the C's
`*cur = &np[0]`), and then `add_pool` fails its pointer-array `realloc`
— `alloc` returns NULL with the arena mapped and linked but never
registered (and `pal` doubled, cf. C6).  Teardown unmaps only `[4097]`:
the unmap list is not a permutation of the mapped arenas, so the arena
mapped on the growth path was registered zero times, not exactly
once. -/
theorem C7_growth_arena_unregistered :
    growthPreState.cnt = 4 ∧ growthPreState.pal = 4 ∧
    growthPreState.mapped = [4097] ∧
    growthPreState.hs.getD 2 0 = 6145 ∧ growthPreState.mem 6145 = 0 ∧
    growthFailResult.1 = none ∧
    growthFailState.mapped = [4097, 8194] ∧
    growthFailState.mem 6145 = 8194 ∧
    (teardownUnmaps growthFailState).map Prod.fst = [4097] ∧
    growthFailState.pal = 8 ∧ growthFailState.cnt = 4 ∧
    ¬ ((teardownUnmaps growthFailState).map Prod.fst).Perm
      growthFailState.mapped := by decide

end ClaimC7

section ClaimC9

/-- Claim C9 — confirmed (on the success-path model).  Once a class's
free-list head has been set non-null (e.g. by a successful alloc after
`ops1`), it is still non-null after any further valid operations `ops2`:
the free-list pop always installs the popped chunk's link as the new
head, and when that link is the empty sentinel the end-of-arena growth
branch (`growIfEnd`) first maps a fresh arena and links it on, so the
head never becomes the empty sentinel while allocation succeeds. -/
theorem C9_head_never_empties (min2 max2 psz : Nat) (h3 : 3 ≤ min2)
    (hle : min2 ≤ max2) (h30 : max2 ≤ 30) (ops1 ops2 : List Op)
    (hv1 : ∀ op ∈ ops1, op.valid) (hv2 : ∀ op ∈ ops2, op.valid) (i : Nat)
    (hset : (run (mpool_init min2 max2 psz) ops1).hs.getD i 0 ≠ 0) :
    (run (mpool_init min2 max2 psz) (ops1 ++ ops2)).hs.getD i 0 ≠ 0 := by
  have hInv := run_inv _ ops1 (init_inv min2 max2 psz h3 hle h30) hv1
  have happ : run (mpool_init min2 max2 psz) (ops1 ++ ops2) =
      run (run (mpool_init min2 max2 psz) ops1) ops2 :=
    List.foldl_append _ _ _ _
  rw [happ]
  exact run_hs_mono _ ops2 hInv hv2 i hset

/-- Witness for `C9_head_never_empties`: after `alloc(10)` the 16-byte
class head is non-null, and stays non-null after another `alloc(10)`
followed by a `release`. -/
theorem C9_head_never_empties_witness :
    (run (mpool_init 3 12 4096) ([Op.alloc 10] ++ [Op.alloc 10, Op.repool 4101])).hs.getD 1 0
      ≠ 0 :=
  C9_head_never_empties 3 12 4096 (by decide) (by decide) (by decide)
    [Op.alloc 10] [Op.alloc 10, Op.repool 4101] (by decide) (by decide) 1 (by decide)

end ClaimC9

end Mempool
